import Mathlib

/-!
Verification of the FlatDB record engine (src/flatdb.js).

The JavaScript source is embedded shallowly: records are association lists
from field names to a Value type mirroring the JavaScript values the engine
handles, tables are a structure of records, indexes and foreign keys, and
every engine operation is a pure Lean function translated clause by clause
from the source. JavaScript exceptions are modelled by returning the error
message next to the state the operation had mutated so far, which is exactly
what a caller of the JavaScript code observes after catching the throw.

Modelling notes, stated once here:
- JavaScript property keys are strings; writing a non-string value into an
  object key applies the String() coercion. toKey below implements that
  coercion for the embedded values.
- Strict equality (triple equals) on two separately constructed arrays,
  plain objects or Buffers is reference equality and therefore false; every
  comparison the engine performs compares separately constructed values, so
  strictEq returns false on those constructors.
- The SHA-256 digest of _storeBinaryData is modelled by an injective
  encoding of the byte list; the only property the engine relies on is that
  equal byte contents give equal digests and (collision freedom assumed)
  distinct contents give distinct digests.
- Regular-expression tests (the $regex operator and the pattern schema rule)
  are abstracted to substring containment; no claim exercises them.
- Mixed-type relational comparisons (a number against a string and the like)
  coerce in JavaScript; the embedding returns false for them, and no claim
  exercises them.
-/

namespace FlatDb

/-- The JavaScript values the engine stores and queries: numbers (integer
valued in every claim), strings, booleans, null, undefined, arrays, plain
objects and Buffers (byte lists). -/
inductive Value : Type
  | num (n : Int)
  | str (s : String)
  | bool (b : Bool)
  | null
  | undef
  | arr (xs : List Value)
  | obj (fields : List (String × Value))
  | buf (bytes : List Nat)

/-- A record or query object: field name to value, in property order. -/
abbrev Record : Type := List (String × Value)

/-- JavaScript truthiness of a value. -/
def truthy : Value → Bool
  | Value.num n => n != 0
  | Value.str s => !s.isEmpty
  | Value.bool b => b
  | Value.null => false
  | Value.undef => false
  | Value.arr _ => true
  | Value.obj _ => true
  | Value.buf _ => true

/-- The typeof operator. -/
def typeofVal : Value → String
  | Value.num _ => "number"
  | Value.str _ => "string"
  | Value.bool _ => "boolean"
  | Value.null => "object"
  | Value.undef => "undefined"
  | Value.arr _ => "object"
  | Value.obj _ => "object"
  | Value.buf _ => "object"

mutual

/-- One element of an array under the String() coercion: null and undefined
join as the empty string. -/
def toKeyE : Value → String
  | Value.null => ""
  | Value.undef => ""
  | Value.num n => toString n
  | Value.str s => s
  | Value.bool b => cond b "true" "false"
  | Value.buf bs => String.mk (bs.map Char.ofNat)
  | Value.obj _ => "[object Object]"
  | Value.arr xs => toKeyJoin xs

/-- Array elements joined with commas, as Array.prototype.toString does. -/
def toKeyJoin : List Value → String
  | [] => ""
  | [x] => toKeyE x
  | x :: y :: xs => toKeyE x ++ "," ++ toKeyJoin (y :: xs)

end

/-- The String() coercion a value undergoes when used as a property key. -/
def toKey : Value → String
  | Value.num n => toString n
  | Value.str s => s
  | Value.bool b => cond b "true" "false"
  | Value.null => "null"
  | Value.undef => "undefined"
  | Value.buf bs => String.mk (bs.map Char.ofNat)
  | Value.obj _ => "[object Object]"
  | Value.arr xs => toKeyJoin xs

/-- Strict equality (triple equals). Arrays, objects and Buffers compare by
reference; the engine only ever compares separately constructed ones, so
those cases are false. -/
def strictEq : Value → Value → Bool
  | Value.num a, Value.num b => a == b
  | Value.str a, Value.str b => a == b
  | Value.bool a, Value.bool b => a == b
  | Value.null, Value.null => true
  | Value.undef, Value.undef => true
  | _, _ => false

/-- First binding of a key in an association list (property lookup). -/
def alook {α : Type} : List (String × α) → String → Option α
  | [], _ => none
  | kv :: rest, k => if kv.1 = k then some kv.2 else alook rest k

/-- Property assignment: an existing key keeps its position, a new key is
appended, as JavaScript object assignment does. -/
def aset {α : Type} : List (String × α) → String → α → List (String × α)
  | [], k, v => [(k, v)]
  | kv :: rest, k, v => if kv.1 = k then (k, v) :: rest else kv :: aset rest k v

/-- Property read: an absent key reads as undefined. -/
def jsGet (r : Record) (k : String) : Value :=
  match alook r k with
  | some v => v
  | none => Value.undef

/-- Object spread and Object.assign: the fields of the second object written
onto the first, in order. -/
def mergeObj (r add : Record) : Record :=
  add.foldl (fun acc kv => aset acc kv.1 kv.2) r

/-- Object.entries for operator objects: arrays and Buffers enumerate their
elements under numeric string keys. -/
def enumKeys : Nat → List Value → List (String × Value)
  | _, [] => []
  | i, x :: xs => (toString i, x) :: enumKeys (i + 1) xs

def enumBytes : Nat → List Nat → List (String × Value)
  | _, [] => []
  | i, b :: bs => (toString i, Value.num b) :: enumBytes (i + 1) bs

def entriesOf : Value → List (String × Value)
  | Value.obj l => l
  | Value.arr xs => enumKeys 0 xs
  | Value.buf bs => enumBytes 0 bs
  | _ => []

/-- Substring containment, standing in for a regular-expression test. -/
def strContains (s pat : String) : Bool :=
  pat.isEmpty || (s.splitOn pat).length ≥ 2

/-- Relational comparison used by the query operators; the value read from
the record is undefined when absent, which never satisfies an order. -/
def jsLtV : Value → Value → Bool
  | Value.num a, Value.num b => a < b
  | Value.str a, Value.str b => a < b
  | _, _ => false

def jsGtV : Value → Value → Bool
  | Value.num a, Value.num b => a > b
  | Value.str a, Value.str b => a > b
  | _, _ => false

def jsGeV : Value → Value → Bool
  | Value.num a, Value.num b => a ≥ b
  | Value.str a, Value.str b => a ≥ b
  | _, _ => false

def jsLeV : Value → Value → Bool
  | Value.num a, Value.num b => a ≤ b
  | Value.str a, Value.str b => a ≤ b
  | _, _ => false

/-- One operator of an operator object, from the switch in _matchesQuery;
the default case of the switch returns false. -/
def evalOp (r : Record) (k : String) (op : String) (val : Value) : Bool :=
  if op = "$gt" then jsGtV (jsGet r k) val
  else if op = "$gte" then jsGeV (jsGet r k) val
  else if op = "$lt" then jsLtV (jsGet r k) val
  else if op = "$lte" then jsLeV (jsGet r k) val
  else if op = "$ne" then !(strictEq (jsGet r k) val)
  else if op = "$in" then
    match val with
    | Value.arr xs => xs.any (fun x => strictEq x (jsGet r k))
    | _ => false
  else if op = "$nin" then
    match val with
    | Value.arr xs => !(xs.any (fun x => strictEq x (jsGet r k)))
    | _ => false
  else if op = "$exists" then
    match val with
    | Value.bool b => (alook r k).isSome == b
    | _ => false
  else if op = "$regex" then
    match val with
    | Value.str p => strContains (toKey (jsGet r k)) p
    | _ => false
  else false

/-- _matchesQuery: every top-level field matches; a truthy value of typeof
object is treated as an operator object whose entries must all hold, any
other value is compared with strict equality. -/
def matchesQuery (r : Record) (q : List (String × Value)) : Bool :=
  q.all (fun kv =>
    if truthy kv.2 && (typeofVal kv.2 == "object") then
      (entriesOf kv.2).all (fun ov => evalOp r kv.1 ov.1 ov.2)
    else strictEq (jsGet r kv.1) kv.2)

/-- The rule descriptor of one schema field. -/
structure FieldRules : Type where
  type : Option String := none
  required : Bool := false
  min : Option Int := none
  max : Option Int := none
  minLength : Option Int := none
  maxLength : Option Int := none
  pattern : Option String := none
  enum : Option (List Value) := none
  maxSize : Option Nat := none

abbrev Schema : Type := List (String × FieldRules)

/-- The length property of a value, when it has one. -/
def jsLen : Value → Option Int
  | Value.str s => some (Int.ofNat s.length)
  | Value.arr xs => some (Int.ofNat xs.length)
  | Value.buf bs => some (Int.ofNat bs.length)
  | _ => none

/-- Comparison of a value with a numeric bound inside Schema.validate; a
non-number on the left never satisfies the bound (coercions not modelled). -/
def jsLtNum : Value → Int → Bool
  | Value.num n, m => n < m
  | _, _ => false

def jsGtNum : Value → Int → Bool
  | Value.num n, m => n > m
  | _, _ => false

def isBuf : Value → Bool
  | Value.buf _ => true
  | _ => false

/-- Schema.validate on one field, in the order the source pushes errors. -/
def checkField (data : Record) (field : String) (rules : FieldRules) : List String :=
  match alook data field with
  | none =>
      if rules.required then ["Field " ++ field ++ " is required"] else []
  | some Value.undef =>
      if rules.required then ["Field " ++ field ++ " is required"] else []
  | some Value.null =>
      if rules.required then ["Field " ++ field ++ " is required"] else []
  | some v =>
      (if rules.type == some "binary" then
        (if isBuf v then [] else ["Field " ++ field ++ " must be a Buffer"])
          ++ (match rules.maxSize with
              | some m =>
                  if m ≠ 0 && (match jsLen v with
                               | some l => decide (l > Int.ofNat m)
                               | none => false) then
                    ["Binary field " ++ field ++ " exceeds maximum size of "
                      ++ toString m ++ " bytes"]
                  else []
              | none => [])
      else
        match rules.type with
        | some t =>
            if !t.isEmpty && !(typeofVal v == t) then
              ["Field " ++ field ++ " must be of type " ++ t]
            else []
        | none => [])
      ++ (if rules.type == some "number" then
            (match rules.min with
             | some m => if jsLtNum v m then
                 ["Field " ++ field ++ " must be >= " ++ toString m] else []
             | none => [])
            ++ (match rules.max with
                | some m => if jsGtNum v m then
                    ["Field " ++ field ++ " must be <= " ++ toString m] else []
                | none => [])
          else [])
      ++ (if rules.type == some "string" then
            (match rules.minLength with
             | some m => if (match jsLen v with
                             | some l => decide (l < m)
                             | none => false) then
                 ["Field " ++ field ++ " must have length >= " ++ toString m] else []
             | none => [])
            ++ (match rules.maxLength with
                | some m => if (match jsLen v with
                                | some l => decide (l > m)
                                | none => false) then
                    ["Field " ++ field ++ " must have length <= " ++ toString m] else []
                | none => [])
          else [])
      ++ (if rules.type == some "string" then
            match rules.pattern with
            | some p =>
                if !p.isEmpty && !(strContains (toKey v) p) then
                  ["Field " ++ field ++ " must match pattern " ++ p]
                else []
            | none => []
          else [])
      ++ (match rules.enum with
          | some lst =>
              if lst.any (fun e => strictEq e v) then []
              else ["Field " ++ field ++ " must be one of the enum values"]
          | none => [])

def valFields : Schema → Record → List String
  | [], _ => []
  | fr :: rest, data => checkField data fr.1 fr.2 ++ valFields rest data

/-- Table._validateData: a table without a schema validates everything. -/
def validateData : Option Schema → Record → List String
  | none, _ => []
  | some s, data => valFields s data

/-- The binary store of one table: the files on the medium (path to bytes)
and the chronological log of fs.writeFile calls the engine issued. -/
structure BinaryStore : Type where
  files : List (String × List Nat) := []
  writes : List (String × List Nat) := []

/-- The SHA-256 hex digest, modelled by an injective encoding of the bytes
(collision freedom of the real hash assumed). -/
def hashHex (bytes : List Nat) : String :=
  "sha256-" ++ String.intercalate "-" (bytes.map toString)

/-- Table._detectMimeType: magic-number sniffing over the first bytes. -/
def detectMimeType (bs : List Nat) : String :=
  if bs.length < 4 then "application/octet-stream"
  else
    match bs with
    | b0 :: b1 :: _ =>
        if b0 == 0xFF && b1 == 0xD8 then "image/jpeg"
        else if b0 == 0x89 && b1 == 0x50 then "image/png"
        else if b0 == 0x47 && b1 == 0x49 then "image/gif"
        else if b0 == 0x25 && b1 == 0x50 then "application/pdf"
        else "application/octet-stream"
    | _ => "application/octet-stream"

/-- One binary field processed by Table._storeBinaryData: hash the bytes,
write the blob file unconditionally, replace the field by its content
reference and add the metadata companion field. Validation has already
rejected truthy non-Buffer values for binary fields, so only Buffers are
processed here. -/
def storeOneBinary (d : Record) (st : BinaryStore) (field : String) : Record × BinaryStore :=
  match alook d field with
  | some (Value.buf bytes) =>
      let h := hashHex bytes
      let fname := h ++ ".bin"
      let meta := Value.obj [("size", Value.num (Int.ofNat bytes.length)),
                             ("hash", Value.str h),
                             ("mimeType", Value.str (detectMimeType bytes))]
      let st2 : BinaryStore :=
        { files := aset st.files fname bytes, writes := st.writes ++ [(fname, bytes)] }
      let d2 := aset (aset d field (Value.str ("binary:" ++ h))) (field ++ "_metadata") meta
      (d2, st2)
  | _ => (d, st)

def storeBinaryFields : Schema → Record → BinaryStore → Record × BinaryStore
  | [], d, st => (d, st)
  | fr :: rest, d, st =>
      if fr.2.type == some "binary" && truthy (jsGet d fr.1) then
        let p := storeOneBinary d st fr.1
        storeBinaryFields rest p.1 p.2
      else storeBinaryFields rest d st

/-- Table._storeBinaryData over the whole schema. -/
def storeBinaryData : Option Schema → Record → BinaryStore → Record × BinaryStore
  | none, d, st => (d, st)
  | some s, d, st => storeBinaryFields s d st

/- The source closes over the original data parameter for the binary checks;
the fold above threads the processed record instead, which is identical
because each schema field is visited once and storeOneBinary reads the field
being processed before rewriting it. -/

/-- Strip the binary: prefix of a content reference, as the replace call
does on the stored string (stored references always start with it). -/
def stripBinaryTag (s : String) : String :=
  if "binary:".isPrefixOf s then s.drop 7 else s

/-- An index on one field: property-key string to the positions list. -/
abbrev Index : Type := List (String × List Nat)

/-- The push into index[value], creating the bucket when absent. -/
def addPos : Index → String → Nat → Index
  | [], k, p => [(k, [p])]
  | kv :: rest, k, p =>
      if kv.1 = k then (k, kv.2 ++ [p]) :: rest else kv :: addPos rest k p

/-- The bucket of a key, empty when the key is absent. -/
def bucket (idx : Index) (k : String) : List Nat :=
  (alook idx k).getD []

def buildIndexAux (field : String) : List Record → Nat → Index → Index
  | [], _, idx => idx
  | r :: rs, i, idx => buildIndexAux field rs (i + 1) (addPos idx (toKey (jsGet r field)) i)

/-- createIndex and the rebuild after delete: every record position pushed
under the String() coercion of its field value. -/
def buildIndex (records : List Record) (field : String) : Index :=
  buildIndexAux field records 0 []

/-- The persisted state of one table. -/
structure TableData : Type where
  records : List Record := []
  indexes : List (String × Index) := []
  foreignKeys : List (String × (String × String)) := []

/-- The record positions whose field value has the given property-key
string, counting from a start position. -/
def keyPositionsFrom (field k : String) : List Record → Nat → List Nat
  | [], _ => []
  | r :: rs, i =>
      (if toKey (jsGet r field) = k then [i] else []) ++ keyPositionsFrom field k rs (i + 1)

def keyPositions (records : List Record) (field k : String) : List Nat :=
  keyPositionsFrom field k records 0

/-- The index invariant: every registered index maps every property-key
string to exactly the positions of the records whose field value has that
key string. -/
def indexConsistent (td : TableData) : Prop :=
  ∀ field idx, alook td.indexes field = some idx →
    ∀ k, bucket idx k = keyPositions td.records field k

/-- The shared tail of insert and insertMany: push the record, then push its
position into every registered index. -/
def insertRecordRaw (td : TableData) (record : Record) : TableData :=
  { td with
    records := td.records ++ [record],
    indexes := td.indexes.map
      (fun fi => (fi.1, addPos fi.2 (toKey (jsGet record fi.1)) td.records.length)) }

/-- The record literal of insert: underscore id first, the processed data
spread over it, createdAt written last. -/
def buildRecord (id : String) (processed : Record) (ts : String) : Record :=
  mergeObj (mergeObj [("_id", Value.str id)] processed) [("createdAt", Value.str ts)]

def joinErrors (errs : List String) : String :=
  "Validation failed: " ++ String.intercalate ", " errs

/-- Table.insert. The current source performs no foreign-key check on a
single insert (the check exists only in insertMany); validation failure
throws before any mutation. The result carries the error message when the
call threw, the table and store afterwards, and the inserted record. -/
def insertOp (schema : Option Schema) (td : TableData) (bs : BinaryStore)
    (id ts : String) (data : Record) :
    Option String × TableData × BinaryStore × Option Record :=
  let errs := validateData schema data
  if errs.isEmpty then
    let p := storeBinaryData schema data bs
    let record := buildRecord id p.1 ts
    (none, insertRecordRaw td record, p.2, some record)
  else (some (joinErrors errs), td, bs, none)

/-- The first validation pass of insertMany. -/
def validatePass (schema : Option Schema) : List Record → Option String
  | [] => none
  | d :: ds =>
      let errs := validateData schema d
      if errs.isEmpty then validatePass schema ds
      else some ("Validation failed for document: " ++ String.intercalate ", " errs)

/-- The foreign-key pass of insertMany. The source fetches the referenced
table with this.db.table(reference.table) without awaiting the async
accessor, so the value in hand is a Promise without a findOne method and
the lookup line throws a TypeError as soon as a document has a truthy value
on any registered foreign-key field; the referenced table is never
consulted. -/
def fkPass (fks : List (String × (String × String))) : List Record → Option String
  | [] => none
  | d :: ds =>
      if fks.any (fun fr => truthy (jsGet d fr.1)) then
        some "TypeError: refTable.findOne is not a function"
      else fkPass fks ds

/-- The insertion pass of insertMany: binary extraction, record literal,
append, index pushes, one document after another. -/
def insertPass (schema : Option Schema) (idGen : Nat → String) (ts : String) :
    List Record → Nat → TableData → BinaryStore → TableData × BinaryStore × List Record
  | [], _, td, bs => (td, bs, [])
  | d :: ds, i, td, bs =>
      let p := storeBinaryData schema d bs
      let record := buildRecord (idGen i) p.1 ts
      let out := insertPass schema idGen ts ds (i + 1) (insertRecordRaw td record) p.2
      (out.1, out.2.1, record :: out.2.2)

/-- Table.insertMany: validate every document, then run the foreign-key pass
over every document, and only then insert; a throw in either pass leaves the
table and store untouched. -/
def insertManyOp (schema : Option Schema) (td : TableData) (bs : BinaryStore)
    (idGen : Nat → String) (ts : String) (docs : List Record) :
    Option String × TableData × BinaryStore × List Record :=
  match validatePass schema docs with
  | some e => (some e, td, bs, [])
  | none =>
      match fkPass td.foreignKeys docs with
      | some e => (some e, td, bs, [])
      | none =>
          let out := insertPass schema idGen ts docs 0 td bs
          (none, out.1, out.2.1, out.2.2)

def scanPositionsFrom (q : List (String × Value)) : List Record → Nat → List Nat
  | [], _ => []
  | r :: rs, i =>
      (if matchesQuery r q then [i] else []) ++ scanPositionsFrom q rs (i + 1)

/-- Table.find as positions. The first query field with a registered index
whose query value is not of typeof object takes the index path: the bucket
of the coerced value, re-filtered through the matcher; everything else scans.
A bucket position beyond the record sequence would make the source throw
while matching undefined; such positions are dropped here and never arise
in the claims. -/
def findPositions (td : TableData) (q : List (String × Value)) : List Nat :=
  match q.find? (fun kv => (alook td.indexes kv.1).isSome) with
  | some kv =>
      if typeofVal kv.2 == "object" then scanPositionsFrom q td.records 0
      else
        let idx := (alook td.indexes kv.1).getD []
        let ps := bucket idx (toKey kv.2)
        ps.filter (fun p =>
          match td.records.get? p with
          | some r => matchesQuery r q
          | none => false)
  | none => scanPositionsFrom q td.records 0

def findOp (td : TableData) (q : List (String × Value)) : List Record :=
  (findPositions td q).filterMap (fun p => td.records.get? p)

def findOneOp (td : TableData) (q : List (String × Value)) : Option Record :=
  (findOp td q).head?

/-- Table.count: an empty query reads the record count directly. -/
def countOp (td : TableData) (q : List (String × Value)) : Nat :=
  if q.isEmpty then td.records.length else (findOp td q).length

/-- The merged candidate of one matched record: existing fields, the patch
spread over them, updatedAt stamped. Object.assign produces the same object. -/
def mergedCandidate (r patch : Record) (ts : String) : Record :=
  mergeObj r (patch ++ [("updatedAt", Value.str ts)])

/-- The forEach body of Table.update: validate the merged candidate of each
matched position in order, mutating as it goes; a validation failure throws,
leaving every earlier mutation in place. -/
def updateLoop (schema : Option Schema) (patch : Record) (ts : String) :
    List Record → List Nat → Option String × List Record
  | records, [] => (none, records)
  | records, p :: rest =>
      let merged := mergedCandidate (records.getD p []) patch ts
      let errs := validateData schema merged
      if errs.isEmpty then updateLoop schema patch ts (records.set p merged) rest
      else (some (joinErrors errs), records)

/-- Table.update. Indexes are not touched. -/
def updateOp (schema : Option Schema) (td : TableData)
    (q patch : List (String × Value)) (ts : String) : Option String × TableData :=
  let out := updateLoop schema patch ts td.records (findPositions td q)
  (out.1, { td with records := out.2 })

/-- Table.updateOne: only the first match, if any. -/
def updateOneOp (schema : Option Schema) (td : TableData)
    (q patch : List (String × Value)) (ts : String) : Option String × TableData :=
  match (findPositions td q).head? with
  | some p =>
      let out := updateLoop schema patch ts td.records [p]
      (out.1, { td with records := out.2 })
  | none => (none, td)

/-- Table.delete: drop the matching records, then rebuild every index from
scratch against the new positions. Returns the removed count. -/
def deleteOp (td : TableData) (q : List (String × Value)) : TableData × Nat :=
  let kept := td.records.filter (fun r => !(matchesQuery r q))
  ({ td with
     records := kept,
     indexes := td.indexes.map (fun fi => (fi.1, buildIndex kept fi.1)) },
   td.records.length - kept.length)

/-- Table.deleteOne: find one match, then delete by its underscore id. -/
def deleteOneOp (td : TableData) (q : List (String × Value)) : TableData × Nat :=
  match findOneOp td q with
  | some r => ((deleteOp td [("_id", jsGet r "_id")]).1, 1)
  | none => (td, 0)

/-- Table.createIndex. -/
def createIndexOp (td : TableData) (field : String) : TableData :=
  { td with indexes := aset td.indexes field (buildIndex td.records field) }

/-- Table.addForeignKey. -/
def addForeignKeyOp (td : TableData) (field refTable refField : String) : TableData :=
  { td with foreignKeys := aset td.foreignKeys field (refTable, refField) }

/-- The group key of a document: the value of the named field, or the result
of an externally supplied key function. -/
inductive GroupId : Type
  | field (name : String)
  | keyFn (f : Record → Value)

def groupKeyOf : GroupId → Record → Value
  | GroupId.field name, doc => jsGet doc name
  | GroupId.keyFn f, doc => f doc

/-- The group stage descriptor: the underscore id key selector, and the
remaining entries of the stage object (accumulator declarations such as
a $sum or $avg over a source field). The engine reads only the id selector
and ignores every other entry. -/
structure GroupSpec : Type where
  gid : GroupId
  accums : List (String × String × String) := []

/-- The running group of one key: the raw key value of the first member, the
counter and the member documents. -/
structure GroupAcc : Type where
  idVal : Value
  count : Nat
  docs : List Record

abbrev Groups : Type := List (String × GroupAcc)

/-- One document folded into the groups object: the raw key value is
coerced to a property-key string; a fresh key appends a group in insertion
order, an existing key counts the document in and appends it to the member
list. -/
def stepGroup (gid : GroupId) (gs : Groups) (doc : Record) : Groups :=
  let kv := groupKeyOf gid doc
  let k := toKey kv
  match alook gs k with
  | none => gs ++ [(k, { idVal := kv, count := 1, docs := [doc] })]
  | some g => aset gs k { g with count := g.count + 1, docs := g.docs ++ [doc] }

def foldGroups (gid : GroupId) : List Record → Groups → Groups
  | [], gs => gs
  | doc :: ds, gs => foldGroups gid ds (stepGroup gid gs doc)

/-- One output record of the group stage: underscore id, count and docs are
its only fields, whatever accumulators the stage declared. Object.values
returns the groups in insertion order of their string keys (JavaScript would
move integer-like keys to the front; no claim concerns the output order). -/
def toGroupRecord (kg : String × GroupAcc) : Record :=
  [("_id", kg.2.idVal),
   ("count", Value.num (Int.ofNat kg.2.count)),
   ("docs", Value.arr (kg.2.docs.map Value.obj))]

def groupRecords (spec : GroupSpec) (recs : List Record) : List Record :=
  (foldGroups spec.gid recs []).map toGroupRecord

/-- One stage descriptor of the aggregation pipeline; an absent entry is an
absent key of the stage object. -/
structure Stage : Type where
  mtch : Option (List (String × Value)) := none
  srt : Option (String × Int) := none
  lim : Option Nat := none
  skp : Option Nat := none
  grp : Option GroupSpec := none

/-- The comparator of the sort stage as a merge-sort order: the source
comparator returns minus order, order or zero, and Array.prototype.sort is
stable, so a stays before b exactly when the comparator is not positive. -/
def sortCmpLe (f : String) (ord : Int) (a b : Record) : Bool :=
  if jsLtV (jsGet a f) (jsGet b f) then 0 ≤ ord
  else if jsGtV (jsGet a f) (jsGet b f) then ord ≤ 0
  else true

/-- One pipeline stage applied to the current sequence, in the order the
source tests the stage keys: match, sort, limit, skip, group. A zero skip
or limit is falsy and leaves the sequence alone. -/
def applyStage (recs : List Record) (st : Stage) : List Record :=
  let r1 := match st.mtch with
    | some q => recs.filter (fun d => matchesQuery d q)
    | none => recs
  let r2 := match st.srt with
    | some fo => r1.mergeSort (sortCmpLe fo.1 fo.2)
    | none => r1
  let r3 := match st.lim with
    | some n => if n ≠ 0 then r2.take n else r2
    | none => r2
  let r4 := match st.skp with
    | some n => if n ≠ 0 then r3.drop n else r3
    | none => r3
  match st.grp with
  | some spec => groupRecords spec r4
  | none => r4

/-- Table.aggregate: the stages applied strictly in pipeline order over a
snapshot of the records. -/
def aggregate (recs : List Record) (pipeline : List Stage) : List Record :=
  pipeline.foldl applyStage recs

/-- A stage holding only a skip entry. -/
def skipStage (n : Nat) : Stage := { skp := some n }

/-- A stage holding only a limit entry. -/
def limitStage (n : Nat) : Stage := { lim := some n }

/-- A stage holding only a group entry. -/
def groupStage (spec : GroupSpec) : Stage := { grp := some spec }

/-- Table._retrieveBinaryData: binary fields resolved back to their bytes
from the store; a missing blob is surfaced as a null field. Truthy
non-string references cannot arise from the engine and are left alone. -/
def retrieveOneBinary (bs : BinaryStore) (r : Record) (field : String) : Record :=
  match alook r field with
  | some (Value.str s) =>
      let h := stripBinaryTag s
      match alook bs.files (h ++ ".bin") with
      | some bytes => aset r field (Value.buf bytes)
      | none => aset r field Value.null
  | _ => r

def retrieveBinaryFields (bs : BinaryStore) : Schema → Record → Record
  | [], r => r
  | fr :: rest, r =>
      if fr.2.type == some "binary" && truthy (jsGet r fr.1) then
        retrieveBinaryFields bs rest (retrieveOneBinary bs r fr.1)
      else retrieveBinaryFields bs rest r

def retrieveBinaryData (schema : Option Schema) (bs : BinaryStore) (r : Record) : Record :=
  match schema with
  | none => r
  | some s => retrieveBinaryFields bs s r

/-- The record scan of findSimilarBinary: push the exact digest matches,
and with a truthy sizeTolerance also the records whose stored size is
within the tolerance of the reference length; reading size from an absent
metadata companion throws. A truthy non-string field value would make the
replace call throw; the engine only stores string references, and the
claims never reach that case, so it is skipped here. -/
def fsbStep (schema : Option Schema) (bs : BinaryStore) (field sourceHash : String)
    (tol : Option Int) (bufLen : Nat) (r : Record) : Except String (Option Record) :=
  if truthy (jsGet r field) then
    match jsGet r field with
    | Value.str s =>
        if stripBinaryTag s = sourceHash then
          Except.ok (some (retrieveBinaryData schema bs r))
        else
          match tol with
          | some t =>
              if t ≠ 0 then
                match alook r (field ++ "_metadata") with
                | some (Value.obj meta) =>
                    match alook meta "size" with
                    | some (Value.num sz) =>
                        if (sz - Int.ofNat bufLen).natAbs ≤ t.natAbs ∧ 0 ≤ t then
                          Except.ok (some (retrieveBinaryData schema bs r))
                        else Except.ok none
                    | _ => Except.ok none
                | _ => Except.error "TypeError: cannot read properties of undefined"
              else Except.ok none
          | none => Except.ok none
    | _ => Except.ok none
  else Except.ok none

def fsbLoop (schema : Option Schema) (bs : BinaryStore) (field sourceHash : String)
    (tol : Option Int) (bufLen : Nat) : List Record → Except String (List Record)
  | [] => Except.ok []
  | r :: rs =>
      match fsbStep schema bs field sourceHash tol bufLen r with
      | Except.error e => Except.error e
      | Except.ok picked =>
          match fsbLoop schema bs field sourceHash tol bufLen rs with
          | Except.error e => Except.error e
          | Except.ok rest =>
              Except.ok (match picked with
                         | some r2 => r2 :: rest
                         | none => rest)

/-- The field-type guard of findSimilarBinary, written exactly as the
source condition: the negation binds before the comparison, so a boolean is
strict-compared with the string binary. -/
def fsbGuard (fieldType : Option String) : Bool :=
  strictEq (Value.bool (!(match fieldType with
                          | some t => !t.isEmpty
                          | none => false)))
    (Value.str "binary")

/-- Table.findSimilarBinary. -/
def findSimilarBinary (schema : Option Schema) (td : TableData) (bs : BinaryStore)
    (field : String) (buffer : List Nat) (tol : Option Int) :
    Except String (List Record) :=
  if fsbGuard ((schema.bind (fun s => alook s field)).bind (fun rules => rules.type)) then
    Except.error ("Field " ++ field ++ " is not a binary field")
  else
    fsbLoop schema bs field (hashHex buffer) tol buffer.length td.records

/-- The default global binary size limit of FlatDB, ten megabytes. -/
def defaultMaxBinarySize : Nat := 10485760

/-- The constructor option: options.maxBinarySize or the default, so a zero
or absent option falls back to ten megabytes. -/
def effectiveGlobalMax (opt : Option Nat) : Nat :=
  match opt with
  | some n => if n ≠ 0 then n else defaultMaxBinarySize
  | none => defaultMaxBinarySize

/-- FlatDB.table: every binary field without a truthy maxSize gets the
global limit written into its rules before the table is built. -/
def normalizeSchema (opt : Option Nat) (s : Schema) : Schema :=
  s.map (fun fr =>
    if fr.2.type == some "binary" && !(match fr.2.maxSize with
                                       | some m => m ≠ 0
                                       | none => false) then
      (fr.1, { fr.2 with maxSize := some (effectiveGlobalMax opt) })
    else fr)

/-- One mutating table operation, for reasoning about operation sequences.
The id and timestamp inputs stand for the generated id and clock reads. -/
inductive Op : Type
  | ins (id ts : String) (data : Record)
  | insMany (idGen : Nat → String) (ts : String) (docs : List Record)
  | upd (q patch : List (String × Value)) (ts : String)
  | updOne (q patch : List (String × Value)) (ts : String)
  | del (q : List (String × Value))
  | delOne (q : List (String × Value))
  | mkIndex (field : String)
  | addFK (field refTable refField : String)

/-- One operation applied to the table and store; a thrown operation leaves
the state it had mutated up to the throw, exactly as the source does. -/
def applyOp (schema : Option Schema) (st : TableData × BinaryStore) (op : Op) :
    TableData × BinaryStore :=
  match op with
  | Op.ins id ts data =>
      let out := insertOp schema st.1 st.2 id ts data
      (out.2.1, out.2.2.1)
  | Op.insMany idGen ts docs =>
      let out := insertManyOp schema st.1 st.2 idGen ts docs
      (out.2.1, out.2.2.1)
  | Op.upd q patch ts => ((updateOp schema st.1 q patch ts).2, st.2)
  | Op.updOne q patch ts => ((updateOneOp schema st.1 q patch ts).2, st.2)
  | Op.del q => ((deleteOp st.1 q).1, st.2)
  | Op.delOne q => ((deleteOneOp st.1 q).1, st.2)
  | Op.mkIndex field => (createIndexOp st.1 field, st.2)
  | Op.addFK field t tf => (addForeignKeyOp st.1 field t tf, st.2)

def applyOps (schema : Option Schema) (ops : List Op) (st : TableData × BinaryStore) :
    TableData × BinaryStore :=
  ops.foldl (applyOp schema) st

/-- The operations that leave no index stale: everything except update and
updateOne, which do not maintain indexes. -/
def opKeepsIndex : Op → Bool
  | Op.upd _ _ _ => false
  | Op.updOne _ _ _ => false
  | _ => true

/-! ## Association-list lemmas -/

theorem alook_aset {α : Type} (l : List (String × α)) (k0 k : String) (v : α) :
    alook (aset l k0 v) k = if k = k0 then some v else alook l k := by
  induction l with
  | nil =>
      by_cases h : k = k0
      · subst h; simp [aset, alook]
      · have h' : ¬ k0 = k := fun hx => h hx.symm
        simp [aset, alook, h, h']
  | cons kv rest ih =>
      by_cases h1 : kv.1 = k0
      · subst h1
        by_cases h2 : k = kv.1
        · subst h2; simp [aset, alook]
        · have h2' : ¬ kv.1 = k := fun hx => h2 hx.symm
          simp [aset, alook, h2, h2']
      · by_cases h2 : kv.1 = k
        · subst h2
          simp [aset, alook, h1]
        · simp [aset, alook, h1, h2, ih]

theorem alook_map_addPos (l : List (String × Index)) (key : String → String)
    (n : Nat) (f : String) :
    alook (l.map (fun fi => (fi.1, addPos fi.2 (key fi.1) n))) f
      = (alook l f).map (fun idx => addPos idx (key f) n) := by
  induction l with
  | nil => rfl
  | cons kv rest ih =>
      by_cases h : kv.1 = f
      · subst h; simp [alook]
      · simp [alook, h, ih]

theorem alook_map_build (l : List (String × Index)) (recs : List Record) (f : String) :
    alook (l.map (fun fi => (fi.1, buildIndex recs fi.1))) f
      = (alook l f).map (fun _ => buildIndex recs f) := by
  induction l with
  | nil => rfl
  | cons kv rest ih =>
      by_cases h : kv.1 = f
      · subst h; simp [alook]
      · simp [alook, h, ih]

/-! ## Bucket lemmas -/

theorem alook_addPos (idx : Index) (k0 k : String) (p : Nat) :
    alook (addPos idx k0 p) k
      = if k = k0 then some ((alook idx k0).getD [] ++ [p]) else alook idx k := by
  induction idx with
  | nil =>
      by_cases h : k = k0
      · subst h; simp [addPos, alook]
      · have h' : ¬ k0 = k := fun hx => h hx.symm
        simp [addPos, alook, h, h']
  | cons kv rest ih =>
      by_cases h1 : kv.1 = k0
      · subst h1
        by_cases h2 : k = kv.1
        · subst h2; simp [addPos, alook]
        · have h2' : ¬ kv.1 = k := fun hx => h2 hx.symm
          simp [addPos, alook, h2, h2']
      · by_cases h2 : kv.1 = k
        · subst h2
          simp [addPos, alook, h1]
        · simp [addPos, alook, h1, h2, ih]

theorem bucket_addPos (idx : Index) (k0 k : String) (p : Nat) :
    bucket (addPos idx k0 p) k
      = if k = k0 then bucket idx k ++ [p] else bucket idx k := by
  unfold bucket
  rw [alook_addPos]
  by_cases h : k = k0
  · rw [if_pos h, if_pos h, h]
    rfl
  · rw [if_neg h, if_neg h]

theorem keyPositionsFrom_append (field k : String) (rs : List Record) (r : Record) :
    ∀ i, keyPositionsFrom field k (rs ++ [r]) i
      = keyPositionsFrom field k rs i
          ++ (if toKey (jsGet r field) = k then [rs.length + i] else []) := by
  induction rs with
  | nil =>
      intro i
      by_cases h : toKey (jsGet r field) = k <;>
        simp [keyPositionsFrom, h]
  | cons r0 rs0 ih =>
      intro i
      have h1 := ih (i + 1)
      have h2 : rs0.length + (i + 1) = rs0.length + 1 + i := by omega
      show (if toKey (jsGet r0 field) = k then [i] else [])
            ++ keyPositionsFrom field k (rs0 ++ [r]) (i + 1)
          = ((if toKey (jsGet r0 field) = k then [i] else [])
            ++ keyPositionsFrom field k rs0 (i + 1))
            ++ (if toKey (jsGet r field) = k then [(r0 :: rs0).length + i] else [])
      rw [h1, List.length_cons, h2, List.append_assoc]

theorem keyPositions_append (rs : List Record) (r : Record) (field k : String) :
    keyPositions (rs ++ [r]) field k
      = keyPositions rs field k
          ++ (if toKey (jsGet r field) = k then [rs.length] else []) := by
  have := keyPositionsFrom_append field k rs r 0
  simpa [keyPositions] using this

theorem bucket_buildIndexAux (field k : String) (rs : List Record) :
    ∀ i idx, bucket (buildIndexAux field rs i idx) k
      = bucket idx k ++ keyPositionsFrom field k rs i := by
  induction rs with
  | nil => intro i idx; simp [buildIndexAux, keyPositionsFrom]
  | cons r rs0 ih =>
      intro i idx
      rw [show buildIndexAux field (r :: rs0) i idx
            = buildIndexAux field rs0 (i + 1) (addPos idx (toKey (jsGet r field)) i)
          from rfl]
      rw [ih (i + 1) _, bucket_addPos]
      by_cases h : k = toKey (jsGet r field)
      · rw [if_pos h]
        have h' : toKey (jsGet r field) = k := h.symm
        simp [keyPositionsFrom, h']
      · rw [if_neg h]
        have h' : ¬ toKey (jsGet r field) = k := fun hx => h hx.symm
        simp [keyPositionsFrom, h']

theorem bucket_buildIndex (recs : List Record) (field k : String) :
    bucket (buildIndex recs field) k = keyPositions recs field k := by
  have := bucket_buildIndexAux field k recs 0 []
  simpa [buildIndex, keyPositions, bucket, alook] using this

/-! ## Index-invariant preservation -/

theorem indexConsistent_insertRecordRaw (td : TableData) (r : Record)
    (h : indexConsistent td) : indexConsistent (insertRecordRaw td r) := by
  intro f idx hlook k
  have hmap : alook (insertRecordRaw td r).indexes f
      = (alook td.indexes f).map
          (fun idx0 => addPos idx0 (toKey (jsGet r f)) td.records.length) := by
    simpa [insertRecordRaw] using
      alook_map_addPos td.indexes (fun f0 => toKey (jsGet r f0)) td.records.length f
  rw [hmap] at hlook
  cases h0 : alook td.indexes f with
  | none => rw [h0] at hlook; exact Option.noConfusion hlook
  | some idx0 =>
      rw [h0] at hlook
      simp only [Option.map_some'] at hlook
      injection hlook with h4
      subst h4
      have hb := h f idx0 h0 k
      have hkey := keyPositions_append td.records r f k
      have hrec : (insertRecordRaw td r).records = td.records ++ [r] := rfl
      rw [hrec, hkey, bucket_addPos, hb]
      by_cases hk : k = toKey (jsGet r f)
      · rw [if_pos hk, if_pos hk.symm]
      · rw [if_neg hk, if_neg (fun hx => hk (Eq.symm hx)), List.append_nil]

theorem indexConsistent_rebuildAll (kept : List Record)
    (idxs : List (String × Index)) (fks : List (String × (String × String))) :
    indexConsistent
      { records := kept,
        indexes := idxs.map (fun fi => (fi.1, buildIndex kept fi.1)),
        foreignKeys := fks } := by
  intro f idx hlook k
  rw [show ({ records := kept,
              indexes := idxs.map (fun fi => (fi.1, buildIndex kept fi.1)),
              foreignKeys := fks } : TableData).indexes
        = idxs.map (fun fi => (fi.1, buildIndex kept fi.1)) from rfl,
      alook_map_build] at hlook
  cases h0 : alook idxs f with
  | none => rw [h0] at hlook; exact Option.noConfusion hlook
  | some idx0 =>
      rw [h0] at hlook
      simp only [Option.map_some'] at hlook
      injection hlook with h4
      subst h4
      exact bucket_buildIndex kept f k

theorem indexConsistent_deleteOp (td : TableData) (q : List (String × Value))
    (_h : indexConsistent td) : indexConsistent (deleteOp td q).1 := by
  simpa [deleteOp] using
    indexConsistent_rebuildAll (td.records.filter (fun r => !(matchesQuery r q)))
      td.indexes td.foreignKeys

theorem indexConsistent_deleteOneOp (td : TableData) (q : List (String × Value))
    (h : indexConsistent td) : indexConsistent (deleteOneOp td q).1 := by
  unfold deleteOneOp
  match findOneOp td q with
  | some r => exact indexConsistent_deleteOp td _ h
  | none => exact h

theorem indexConsistent_createIndexOp (td : TableData) (field : String)
    (h : indexConsistent td) : indexConsistent (createIndexOp td field) := by
  intro f idx hlook k
  simp only [createIndexOp] at hlook
  rw [alook_aset] at hlook
  by_cases hf : f = field
  · subst hf
    rw [if_pos rfl] at hlook
    injection hlook with h4
    subst h4
    exact bucket_buildIndex td.records f k
  · rw [if_neg hf] at hlook
    exact h f idx hlook k

theorem indexConsistent_addForeignKeyOp (td : TableData) (field t tf : String)
    (h : indexConsistent td) : indexConsistent (addForeignKeyOp td field t tf) := by
  intro f idx hlook k
  exact h f idx hlook k

theorem indexConsistent_insertOp (schema : Option Schema) (td : TableData)
    (bs : BinaryStore) (id ts : String) (data : Record)
    (h : indexConsistent td) :
    indexConsistent (insertOp schema td bs id ts data).2.1 := by
  by_cases he : (validateData schema data).isEmpty
  · simp only [insertOp, he, if_true]
    exact indexConsistent_insertRecordRaw td _ h
  · simp only [insertOp, he, if_false]
    exact h

theorem indexConsistent_insertPass (schema : Option Schema) (idGen : Nat → String)
    (ts : String) :
    ∀ docs i td bs, indexConsistent td →
      indexConsistent (insertPass schema idGen ts docs i td bs).1 := by
  intro docs
  induction docs with
  | nil => intro i td bs h; exact h
  | cons d ds ih =>
      intro i td bs h
      exact ih (i + 1) _ _ (indexConsistent_insertRecordRaw td _ h)

theorem indexConsistent_insertManyOp (schema : Option Schema) (td : TableData)
    (bs : BinaryStore) (idGen : Nat → String) (ts : String) (docs : List Record)
    (h : indexConsistent td) :
    indexConsistent (insertManyOp schema td bs idGen ts docs).2.1 := by
  unfold insertManyOp
  match validatePass schema docs with
  | some e => exact h
  | none =>
      match fkPass td.foreignKeys docs with
      | some e => exact h
      | none => exact indexConsistent_insertPass schema idGen ts docs 0 td bs h

theorem indexConsistent_applyOp (schema : Option Schema)
    (st : TableData × BinaryStore) (op : Op)
    (h : indexConsistent st.1) (hop : opKeepsIndex op = true) :
    indexConsistent (applyOp schema st op).1 := by
  match op with
  | Op.ins id ts data => exact indexConsistent_insertOp schema st.1 st.2 id ts data h
  | Op.insMany idGen ts docs =>
      exact indexConsistent_insertManyOp schema st.1 st.2 idGen ts docs h
  | Op.upd q patch ts => exact absurd hop (by simp [opKeepsIndex])
  | Op.updOne q patch ts => exact absurd hop (by simp [opKeepsIndex])
  | Op.del q => exact indexConsistent_deleteOp st.1 q h
  | Op.delOne q => exact indexConsistent_deleteOneOp st.1 q h
  | Op.mkIndex field => exact indexConsistent_createIndexOp st.1 field h
  | Op.addFK field t tf => exact indexConsistent_addForeignKeyOp st.1 field t tf h

/-- The fresh table is trivially consistent: it has no index. -/
theorem indexConsistent_start : indexConsistent ({} : TableData) := by
  intro f idx hlook
  exact Option.noConfusion hlook

/-! ## Claim C1: index consistency -/

/-- C1 (amended). For every field with a created Index, after any sequence of
insert, insertMany, delete, deleteOne, createIndex and addForeignKey
operations, and for every property-key string, the positions stored in the
index bucket of that key are exactly the positions of the records whose
field value coerces to that key string. The operation list excludes update
and updateOne: they do not maintain indexes, so an update that changes an
indexed field value breaks the correspondence, as the counterexample shows. -/
theorem c1_index_consistency (schema : Option Schema) (ops : List Op)
    (st : TableData × BinaryStore)
    (hst : indexConsistent st.1)
    (hops : ops.all opKeepsIndex = true) :
    indexConsistent (applyOps schema ops st).1 := by
  induction ops generalizing st with
  | nil => exact hst
  | cons op rest ih =>
      rw [List.all_cons, Bool.and_eq_true] at hops
      exact ih (applyOp schema st op)
        (indexConsistent_applyOp schema st op hst hops.1) hops.2

/-- C1 witness: a concrete insert, index creation, second insert and delete,
starting from the empty table, keep the invariant. -/
theorem c1_index_consistency_witness :
    indexConsistent (applyOps none
      [Op.ins "a" "t1" [("age", Value.num 1)],
       Op.mkIndex "age",
       Op.ins "b" "t2" [("age", Value.num 1)],
       Op.del [("age", Value.num 1)]]
      ({}, {})).1 :=
  c1_index_consistency none
    [Op.ins "a" "t1" [("age", Value.num 1)],
     Op.mkIndex "age",
     Op.ins "b" "t2" [("age", Value.num 1)],
     Op.del [("age", Value.num 1)]]
    ({}, {}) indexConsistent_start (by decide)

/-- C1 counterexample: insert a record with age 1, index the age field, then
update every record to age 2; the index still maps key 1 to position 0 while
no record has that key, so the invariant of the claim fails after a
sequence that includes an update. -/
theorem c1_update_breaks_index :
    ¬ indexConsistent (applyOps none
        [Op.ins "a" "t1" [("age", Value.num 1)],
         Op.mkIndex "age",
         Op.upd [] [("age", Value.num 2)] "t2"]
        ({}, {})).1 := by
  intro h
  have h1 := h "age" [("1", [0])] (by rfl) "1"
  exact absurd h1 (by decide)

/-! ## Claim C2: insertMany batch atomicity -/

theorem validatePass_none_all (schema : Option Schema) (docs : List Record)
    (h : validatePass schema docs = none) :
    ∀ d ∈ docs, (validateData schema d).isEmpty = true := by
  induction docs with
  | nil => intro d hd; exact absurd hd (List.not_mem_nil d)
  | cons d0 ds ih =>
      intro d hd
      by_cases he : (validateData schema d0).isEmpty
      · simp only [validatePass, he, if_true] at h
        cases List.mem_cons.mp hd with
        | inl h1 => rw [h1]; exact he
        | inr h1 => exact ih h d h1
      · simp only [validatePass, he, if_false] at h
        exact Option.noConfusion h

theorem fkPass_none_all (fks : List (String × (String × String))) (docs : List Record)
    (h : fkPass fks docs = none) :
    ∀ d ∈ docs, fks.any (fun fr => truthy (jsGet d fr.1)) = false := by
  induction docs with
  | nil => intro d hd; exact absurd hd (List.not_mem_nil d)
  | cons d0 ds ih =>
      intro d hd
      by_cases ht : fks.any (fun fr => truthy (jsGet d0 fr.1))
      · simp only [fkPass, ht, if_true] at h
        exact Option.noConfusion h
      · simp only [fkPass, ht, if_false] at h
        cases List.mem_cons.mp hd with
        | inl h1 => rw [h1]; exact Bool.eq_false_iff.mpr ht
        | inr h1 => exact ih h d h1

/-- C2. When at least one document of the batch fails validation, or at
least one document trips the foreign-key pass (which, per the missing await
on the table accessor, throws as soon as a document has a truthy value on a
registered foreign-key field), insertMany throws and leaves the record
sequence, the indexes and the binary store exactly as they were: both passes
run to completion before the first document is inserted. -/
theorem c2_insertMany_atomicity (schema : Option Schema) (td : TableData)
    (bs : BinaryStore) (idGen : Nat → String) (ts : String) (docs : List Record)
    (h : docs.any (fun d => !(validateData schema d).isEmpty) = true
       ∨ docs.any (fun d => td.foreignKeys.any (fun fr => truthy (jsGet d fr.1))) = true) :
    (insertManyOp schema td bs idGen ts docs).1.isSome = true
    ∧ (insertManyOp schema td bs idGen ts docs).2.1 = td
    ∧ (insertManyOp schema td bs idGen ts docs).2.2.1 = bs := by
  unfold insertManyOp
  cases hv : validatePass schema docs with
  | some e => exact ⟨rfl, rfl, rfl⟩
  | none =>
      cases hf : fkPass td.foreignKeys docs with
      | some e => exact ⟨rfl, rfl, rfl⟩
      | none =>
          exfalso
          cases h with
          | inl h1 =>
              obtain ⟨d, hd, hbad⟩ := List.any_eq_true.mp h1
              have hgood := validatePass_none_all schema docs hv d hd
              rw [hgood] at hbad
              exact Bool.noConfusion hbad
          | inr h1 =>
              obtain ⟨d, hd, hbad⟩ := List.any_eq_true.mp h1
              have hgood := fkPass_none_all td.foreignKeys docs hf d hd
              rw [hbad] at hgood
              exact Bool.noConfusion hgood

/-- C2 witness: a batch with one document missing a required field aborts
and leaves a nonempty table untouched. -/
theorem c2_insertMany_atomicity_witness :
    (insertManyOp (some [("name", { required := true })])
        { records := [[("name", Value.str "ok")]] } {} (fun _ => "x") "t"
        [[("name", Value.str "also ok")], [("age", Value.num 3)]]).1.isSome = true
    ∧ (insertManyOp (some [("name", { required := true })])
        { records := [[("name", Value.str "ok")]] } {} (fun _ => "x") "t"
        [[("name", Value.str "also ok")], [("age", Value.num 3)]]).2.1
      = { records := [[("name", Value.str "ok")]] }
    ∧ (insertManyOp (some [("name", { required := true })])
        { records := [[("name", Value.str "ok")]] } {} (fun _ => "x") "t"
        [[("name", Value.str "also ok")], [("age", Value.num 3)]]).2.2.1 = {} :=
  c2_insertMany_atomicity (some [("name", { required := true })])
    { records := [[("name", Value.str "ok")]] } {} (fun _ => "x") "t"
    [[("name", Value.str "also ok")], [("age", Value.num 3)]] (Or.inl (by decide))

/-! ## Claim C3: single insert and foreign keys -/

/-- C3 (code bug). The current insert performs no foreign-key lookup at all:
a document whose foreign-key field references a row that exists nowhere is
inserted without error, and the error flag and resulting record sequence of
insert are independent of the registered foreign keys. The older revision
checked foreign keys in insert and the repository test expects the check to
throw, so the missing check is a regression, not the intent. -/
theorem c3_insert_skips_foreign_keys :
    (insertOp none { foreignKeys := [("authorId", ("users", "_id"))] } {}
        "i1" "t" [("authorId", Value.str "missing")]).1 = none
    ∧ (insertOp none { foreignKeys := [("authorId", ("users", "_id"))] } {}
        "i1" "t" [("authorId", Value.str "missing")]).2.1.records.length = 1
    ∧ ∀ (recs : List Record) (idxs : List (String × Index))
        (fks fks2 : List (String × (String × String))) (bs : BinaryStore)
        (id ts : String) (data : Record),
        (insertOp none { records := recs, indexes := idxs, foreignKeys := fks }
            bs id ts data).1
          = (insertOp none { records := recs, indexes := idxs, foreignKeys := fks2 }
              bs id ts data).1
        ∧ (insertOp none { records := recs, indexes := idxs, foreignKeys := fks }
            bs id ts data).2.1.records
          = (insertOp none { records := recs, indexes := idxs, foreignKeys := fks2 }
              bs id ts data).2.1.records := by
  refine ⟨rfl, rfl, ?_⟩
  intro recs idxs fks fks2 bs id ts data
  exact ⟨rfl, rfl⟩

/-! ## Claim C9: skip and limit order -/

/-- C9. Pipeline stages apply strictly in pipeline order: a skip stage
followed by a limit stage drops the prefix first and then caps the result,
and the reversed pipeline caps first and then drops, which yields a
different sequence in general. -/
theorem c9_skip_limit_order (recs : List Record) (k n : Nat)
    (hk : k ≠ 0) (hn : n ≠ 0) :
    aggregate recs [skipStage k, limitStage n] = (recs.drop k).take n
    ∧ aggregate recs [limitStage n, skipStage k] = (recs.take n).drop k := by
  constructor
  · simp [aggregate, applyStage, skipStage, limitStage, hk, hn]
  · simp [aggregate, applyStage, skipStage, limitStage, hk, hn]

/-- The ten records of the order-sensitivity scenario. -/
def recs10 : List Record :=
  (List.range 10).map (fun i => [("n", Value.num (Int.ofNat i))])

/-- C9 witness: on ten sorted records, skip 2 then limit 3 yields records
3 to 5, while limit 3 then skip 2 yields only record 3; the two pipelines
return sequences of different lengths. -/
theorem c9_skip_limit_order_witness :
    aggregate recs10 [skipStage 2, limitStage 3]
        = [[("n", Value.num 2)], [("n", Value.num 3)], [("n", Value.num 4)]]
    ∧ aggregate recs10 [limitStage 3, skipStage 2] = [[("n", Value.num 2)]]
    ∧ (aggregate recs10 [skipStage 2, limitStage 3]).length = 3
    ∧ (aggregate recs10 [limitStage 3, skipStage 2]).length = 1 := by
  have h := c9_skip_limit_order recs10 2 3 (by decide) (by decide)
  refine ⟨h.1.trans (by rfl), h.2.trans (by rfl), ?_, ?_⟩
  · rw [h.1]; rfl
  · rw [h.2]; rfl

/-! ## Claim C10: object-valued query terms -/

/-- The operator names the switch of the matcher recognizes. -/
def recognizedOps : List String :=
  ["$gt", "$gte", "$lt", "$lte", "$ne", "$in", "$nin", "$exists", "$regex"]

theorem evalOp_unrecognized (r : Record) (k op : String) (val : Value)
    (h : ¬ op ∈ recognizedOps) : evalOp r k op val = false := by
  simp only [recognizedOps, List.mem_cons, List.not_mem_nil, or_false, not_or] at h
  obtain ⟨h1, h2, h3, h4, h5, h6, h7, h8, h9⟩ := h
  simp only [evalOp, if_neg h1, if_neg h2, if_neg h3, if_neg h4, if_neg h5,
    if_neg h6, if_neg h7, if_neg h8, if_neg h9]

theorem scanPositionsFrom_empty (q : List (String × Value))
    (h : ∀ r : Record, matchesQuery r q = false) :
    ∀ (rs : List Record) (i : Nat), scanPositionsFrom q rs i = [] := by
  intro rs
  induction rs with
  | nil => intro i; rfl
  | cons r rs0 ih => intro i; simp [scanPositionsFrom, h r, ih (i + 1)]

theorem findPositions_empty (td : TableData) (q : List (String × Value))
    (h : ∀ r : Record, matchesQuery r q = false) : findPositions td q = [] := by
  unfold findPositions
  cases q.find? (fun kv => (alook td.indexes kv.1).isSome) with
  | none => exact scanPositionsFrom_empty q h td.records 0
  | some kv =>
      by_cases ht : typeofVal kv.2 == "object"
      · simp only [ht, if_true]
        exact scanPositionsFrom_empty q h td.records 0
      · simp only [ht, Bool.false_eq_true, if_false]
        rw [List.filter_eq_nil_iff]
        intro p hp
        cases hg : td.records.get? p with
        | none => simp [hg]
        | some r => simp [hg, h r]

/-- C10 (amended). A query term whose value is truthy, of typeof object
(arrays, plain objects, Buffers) and has at least one entry, none of whose
keys is a recognized operator, never matches: every such entry hits the
default switch case, so find, count and delete with that term select no
record, whatever the remaining query terms are. An operator object with no
entries at all (an empty array or empty object) is the exception the
original claim misses: its vacuous conjunction matches every record. -/
theorem c10_unrecognized_operator_objects (r : Record) (td : TableData)
    (q1 q2 : List (String × Value)) (k : String) (v : Value)
    (htr : truthy v = true) (hty : typeofVal v = "object")
    (hne : entriesOf v ≠ [])
    (hunrec : (entriesOf v).all (fun ov => !(decide (ov.1 ∈ recognizedOps))) = true) :
    matchesQuery r (q1 ++ (k, v) :: q2) = false
    ∧ findOp td (q1 ++ (k, v) :: q2) = []
    ∧ countOp td (q1 ++ (k, v) :: q2) = 0
    ∧ (deleteOp td (q1 ++ (k, v) :: q2)).1.records = td.records
    ∧ (deleteOp td (q1 ++ (k, v) :: q2)).2 = 0 := by
  obtain ⟨e, es, hent⟩ : ∃ e es, entriesOf v = e :: es := by
    cases hE : entriesOf v with
    | nil => exact absurd hE hne
    | cons a l => exact ⟨a, l, rfl⟩
  rw [hent, List.all_cons, Bool.and_eq_true] at hunrec
  have hop : ¬ e.1 ∈ recognizedOps := by
    have h1 := hunrec.1
    rw [Bool.not_eq_eq_eq_not, Bool.not_true] at h1
    exact of_decide_eq_false h1
  have hterm : ∀ r' : Record,
      (if truthy v && (typeofVal v == "object") then
        (entriesOf v).all (fun ov => evalOp r' k ov.1 ov.2)
      else strictEq (jsGet r' k) v) = false := by
    intro r'
    rw [htr, hty, hent]
    simp [evalOp_unrecognized r' k e.1 e.2 hop]
  have hmq : ∀ r' : Record, matchesQuery r' (q1 ++ (k, v) :: q2) = false := by
    intro r'
    unfold matchesQuery
    rw [List.all_append, List.all_cons]
    simp only [hterm r']
    simp
  have hfp : findPositions td (q1 ++ (k, v) :: q2) = [] := findPositions_empty td _ hmq
  have hq : (q1 ++ (k, v) :: q2).isEmpty = false := by
    cases q1 <;> rfl
  have hkeep : td.records.filter (fun r0 => !(matchesQuery r0 (q1 ++ (k, v) :: q2)))
      = td.records := by
    rw [List.filter_eq_self]
    intro a ha
    simp [hmq a]
  refine ⟨hmq r, ?_, ?_, ?_, ?_⟩
  · simp [findOp, hfp]
  · simp [countOp, hq, findOp, hfp]
  · simp [deleteOp, hkeep]
  · simp [deleteOp, hkeep]

/-- C10 witness: the singleton-array query value never matches, and find,
count and delete on a one-record table select nothing. -/
theorem c10_unrecognized_operator_objects_witness :
    matchesQuery [("a", Value.num 1)] ([] ++ ("a", Value.arr [Value.num 5]) :: [])
      = false
    ∧ findOp { records := [[("a", Value.num 1)]] }
        ([] ++ ("a", Value.arr [Value.num 5]) :: []) = []
    ∧ countOp { records := [[("a", Value.num 1)]] }
        ([] ++ ("a", Value.arr [Value.num 5]) :: []) = 0
    ∧ (deleteOp { records := [[("a", Value.num 1)]] }
        ([] ++ ("a", Value.arr [Value.num 5]) :: [])).1.records
      = ({ records := [[("a", Value.num 1)]] } : TableData).records
    ∧ (deleteOp { records := [[("a", Value.num 1)]] }
        ([] ++ ("a", Value.arr [Value.num 5]) :: [])).2 = 0 :=
  c10_unrecognized_operator_objects [("a", Value.num 1)]
    { records := [[("a", Value.num 1)]] } [] [] "a" (Value.arr [Value.num 5])
    (by decide) (by decide) (fun hcon => List.noConfusion hcon) (by decide)

/-- C10 counterexample: an empty-array query value matches a record whose
field holds a number, and find returns the record, so an array-valued term
does not always select nothing. -/
theorem c10_empty_array_matches_all :
    matchesQuery [("a", Value.num 1)] [("a", Value.arr [])] = true
    ∧ findOp { records := [[("a", Value.num 1)]] } [("a", Value.arr [])]
      = [[("a", Value.num 1)]] :=
  ⟨rfl, rfl⟩

/-! ## Claim C5: binary size limits -/

/-- The effective limit of the claim: the declared field limit when truthy,
else the global limit (itself defaulting when unset or zero). -/
def effectiveLimit (opt d : Option Nat) : Nat :=
  match d with
  | some m => if m ≠ 0 then m else effectiveGlobalMax opt
  | none => effectiveGlobalMax opt

theorem normalizeSchema_singleBinary (opt d : Option Nat) :
    normalizeSchema opt [("f", { type := some "binary", maxSize := d })]
      = [("f", { type := some "binary", maxSize := some (effectiveLimit opt d) })] := by
  cases d with
  | none => simp [normalizeSchema, effectiveLimit]
  | some m =>
      by_cases hm : m ≠ 0
      · simp [normalizeSchema, effectiveLimit, hm]
      · simp [normalizeSchema, effectiveLimit, hm]

theorem effectiveLimit_ne_zero (opt d : Option Nat) : effectiveLimit opt d ≠ 0 := by
  cases d with
  | none =>
      cases opt with
      | none => decide
      | some n =>
          by_cases hn : n ≠ 0 <;>
            simp [effectiveLimit, effectiveGlobalMax, hn, defaultMaxBinarySize]
  | some m =>
      by_cases hm : m ≠ 0
      · simp [effectiveLimit, hm]
      · cases opt with
        | none => simp [effectiveLimit, hm, effectiveGlobalMax, defaultMaxBinarySize]
        | some n =>
            by_cases hn : n ≠ 0 <;>
              simp [effectiveLimit, effectiveGlobalMax, hm, hn, defaultMaxBinarySize]

theorem validate_singleBinary_size (M : Nat) (hM : M ≠ 0) (bytes : List Nat) :
    validateData (some [("f", { type := some "binary", maxSize := some M })])
        [("f", Value.buf bytes)]
      = if bytes.length ≤ M then []
        else ["Binary field f exceeds maximum size of " ++ toString M ++ " bytes"] := by
  by_cases h : bytes.length ≤ M
  · have hd : ¬ ((Int.ofNat bytes.length) > Int.ofNat M) :=
      fun hc => (not_lt.mpr h) (Int.ofNat_lt.mp hc)
    simp [validateData, valFields, checkField, alook, isBuf, jsLen, hM, hd, h]
  · have hd : (Int.ofNat bytes.length) > Int.ofNat M := Int.ofNat_lt.mpr (not_le.mp h)
    simp [validateData, valFields, checkField, alook, isBuf, jsLen, hM, hd, h]

theorem insertOp_ok_iff (schema : Option Schema) (td : TableData) (bs : BinaryStore)
    (id ts : String) (data : Record) :
    (insertOp schema td bs id ts data).1 = none
      ↔ (validateData schema data).isEmpty := by
  by_cases he : (validateData schema data).isEmpty
  · simp [insertOp, he]
  · simp [insertOp, he]

/-- C5 (amended). Inserting a binary payload of length L under a table whose
schema declared maxSize d (normalized by FlatDB.table against the
constructor option) succeeds exactly when L is at most the effective limit:
the declared maxSize when it is nonzero, else the global option when that is
nonzero, else ten megabytes. The effective limit is always positive; a
declared maxSize of zero is falsy in the source and is replaced by the
global default rather than enforced, which is where the original claim
fails. -/
theorem c5_size_limit_iff (opt d : Option Nat) (bytes : List Nat) :
    ((insertOp (some (normalizeSchema opt
          [("f", { type := some "binary", maxSize := d })]))
        {} {} "i" "t" [("f", Value.buf bytes)]).1 = none
      ↔ bytes.length ≤ effectiveLimit opt d)
    ∧ 0 < effectiveLimit opt d := by
  constructor
  · rw [normalizeSchema_singleBinary opt d, insertOp_ok_iff,
      validate_singleBinary_size (effectiveLimit opt d) (effectiveLimit_ne_zero opt d)
        bytes]
    by_cases h : bytes.length ≤ effectiveLimit opt d
    · simp [h]
    · simp [h]
  · exact Nat.pos_of_ne_zero (effectiveLimit_ne_zero opt d)

/-- C5 counterexample: with a declared maxSize of zero the claim says a
one-byte payload must be rejected (one exceeds zero), but the insert
succeeds because the zero limit was silently replaced by the ten-megabyte
default. -/
theorem c5_zero_max_size_uses_default :
    (insertOp (some (normalizeSchema none
          [("f", { type := some "binary", maxSize := some 0 })]))
        {} {} "i" "t" [("f", Value.buf [7])]).1 = none
    ∧ ¬ ((1 : Nat) ≤ 0) :=
  ⟨rfl, by decide⟩

/-! ## Claim C4: blob deduplication -/

/-- The schema of the deduplication scenario: one binary field, normalized
as FlatDB.table does. -/
def c4Schema : Schema := normalizeSchema none [("img", { type := some "binary" })]

/-- First insert of the payload into a fresh table and store. -/
def c4First (bytes : List Nat) :=
  insertOp (some c4Schema) {} {} "id1" "t1" [("img", Value.buf bytes)]

/-- Second insert of the same payload into the resulting table and store. -/
def c4Second (bytes : List Nat) :=
  insertOp (some c4Schema) (c4First bytes).2.1 (c4First bytes).2.2.1 "id2" "t2"
    [("img", Value.buf bytes)]

/-- C4 (amended). Storing the same binary content twice yields two records
whose stored content reference carries the identical digest, and the medium
ends with exactly one file for the content, keyed by the digest; but the
repeated store is not write-free: the blob file is rewritten unconditionally
on every store, so the write log holds two writes to the same path. -/
theorem c4_dedup_single_copy (bytes : List Nat)
    (h : bytes.length ≤ defaultMaxBinarySize) :
    (c4First bytes).1 = none
    ∧ (c4Second bytes).1 = none
    ∧ jsGet ((c4First bytes).2.2.2.getD []) "img"
        = Value.str ("binary:" ++ hashHex bytes)
    ∧ jsGet ((c4Second bytes).2.2.2.getD []) "img"
        = Value.str ("binary:" ++ hashHex bytes)
    ∧ (c4Second bytes).2.2.1.files = [(hashHex bytes ++ ".bin", bytes)]
    ∧ (c4Second bytes).2.2.1.writes
        = [(hashHex bytes ++ ".bin", bytes), (hashHex bytes ++ ".bin", bytes)] := by
  have h10 : bytes.length ≤ 10485760 := h
  have h11 : ¬ (10485760 < bytes.length) := not_lt.mpr h10
  refine ⟨?_, ?_, ?_, ?_, ?_, ?_⟩ <;>
    simp [c4First, c4Second, c4Schema, normalizeSchema, effectiveGlobalMax,
      insertOp, validateData, valFields, checkField, alook, isBuf, jsLen,
      storeBinaryData, storeBinaryFields, storeOneBinary, truthy, jsGet,
      buildRecord, mergeObj, aset, insertRecordRaw, defaultMaxBinarySize,
      h10, h11]

/-- C4 witness: the concrete three-byte payload stored twice gives matching
digests, a single file and two write events. -/
theorem c4_dedup_single_copy_witness :
    (c4First [1, 2, 3]).1 = none
    ∧ (c4Second [1, 2, 3]).1 = none
    ∧ jsGet ((c4First [1, 2, 3]).2.2.2.getD []) "img"
        = Value.str ("binary:" ++ hashHex [1, 2, 3])
    ∧ jsGet ((c4Second [1, 2, 3]).2.2.2.getD []) "img"
        = Value.str ("binary:" ++ hashHex [1, 2, 3])
    ∧ (c4Second [1, 2, 3]).2.2.1.files = [(hashHex [1, 2, 3] ++ ".bin", [1, 2, 3])]
    ∧ (c4Second [1, 2, 3]).2.2.1.writes
        = [(hashHex [1, 2, 3] ++ ".bin", [1, 2, 3]),
           (hashHex [1, 2, 3] ++ ".bin", [1, 2, 3])] :=
  c4_dedup_single_copy [1, 2, 3] (by decide)

/-- C4 counterexample: the repeated store is not idempotent on storage, as
the claim states: after the second insert of identical bytes the write log
holds two fs.writeFile events, not one, even though the medium holds a
single file. -/
theorem c4_rewrite_on_duplicate :
    (c4Second [1, 2, 3]).2.2.1.writes.length = 2
    ∧ (c4Second [1, 2, 3]).2.2.1.files.length = 1
    ∧ ¬ ((2 : Nat) = 1) :=
  ⟨rfl, rfl, by decide⟩

/-! ## Claim C8: similarity-search field-type guard -/

/-- C8 (code bug). The guard of findSimilarBinary negates the field type
before comparing it with the string binary, so a boolean is strict-compared
with a string: the condition is false for every field type, the
FieldTypeError throw is unreachable, and a similarity search on a declared
string field proceeds and returns normally instead of failing. -/
theorem c8_guard_never_fires :
    (∀ t : Option String, fsbGuard t = false)
    ∧ findSimilarBinary
        (some [("name", { type := some "string" }), ("img", { type := some "binary" })])
        { records := [[("name", Value.str "alice")]] } {} "name" [9] none
      = Except.ok [] := by
  constructor
  · intro t
    cases t with
    | none => rfl
    | some s => rfl
  · rfl

/-! ## Claim C6: the group stage -/

def groupKeyStr (gid : GroupId) (doc : Record) : String := toKey (groupKeyOf gid doc)

def membersOf (gid : GroupId) (recs : List Record) (k : String) : List Record :=
  recs.filter (fun r => decide (groupKeyStr gid r = k))

theorem alook_append_single {α : Type} (gs : List (String × α)) (k0 k : String) (v : α) :
    alook (gs ++ [(k0, v)]) k
      = match alook gs k with
        | some w => some w
        | none => if k0 = k then some v else none := by
  induction gs with
  | nil => rfl
  | cons kv rest ih =>
      by_cases h : kv.1 = k
      · simp [alook, h]
      · simp only [List.cons_append, alook, if_neg h]
        exact ih

theorem alook_stepGroup (gid : GroupId) (gs : Groups) (doc : Record) (k : String) :
    alook (stepGroup gid gs doc) k
      = if k = groupKeyStr gid doc then
          match alook gs (groupKeyStr gid doc) with
          | none => some { idVal := groupKeyOf gid doc, count := 1, docs := [doc] }
          | some g => some { g with count := g.count + 1, docs := g.docs ++ [doc] }
        else alook gs k := by
  cases h0 : alook gs (groupKeyStr gid doc) with
  | none =>
      have h0' : alook gs (toKey (groupKeyOf gid doc)) = none := h0
      have hstep : stepGroup gid gs doc
          = gs ++ [(toKey (groupKeyOf gid doc),
              { idVal := groupKeyOf gid doc, count := 1, docs := [doc] })] := by
        unfold stepGroup
        simp only [h0']
      rw [hstep, alook_append_single]
      by_cases hk : k = groupKeyStr gid doc
      · subst hk
        rw [if_pos rfl, h0]
        simp [groupKeyStr]
      · rw [if_neg hk]
        have hne : ¬ (toKey (groupKeyOf gid doc)) = k := fun he => hk he.symm
        cases h1 : alook gs k with
        | none => rw [if_neg hne]
        | some w => rfl
  | some g =>
      have h0' : alook gs (toKey (groupKeyOf gid doc)) = some g := h0
      have hstep : stepGroup gid gs doc
          = aset gs (toKey (groupKeyOf gid doc))
              { idVal := g.idVal, count := g.count + 1, docs := g.docs ++ [doc] } := by
        unfold stepGroup
        simp only [h0']
      rw [hstep, alook_aset]
      by_cases hk : k = groupKeyStr gid doc
      · subst hk
        rw [if_pos rfl]
        simp [groupKeyStr]
      · have hk' : ¬ k = toKey (groupKeyOf gid doc) := hk
        rw [if_neg hk', if_neg hk]

theorem alook_foldGroups (gid : GroupId) (recs : List Record) :
    ∀ (acc : Groups) (k : String),
      alook (foldGroups gid recs acc) k
        = match alook acc k, membersOf gid recs k with
          | some g, ms =>
              some { idVal := g.idVal, count := g.count + ms.length,
                     docs := g.docs ++ ms }
          | none, [] => none
          | none, m :: ms =>
              some { idVal := groupKeyOf gid m, count := ms.length + 1,
                     docs := m :: ms } := by
  induction recs with
  | nil =>
      intro acc k
      cases h : alook acc k <;> simp [foldGroups, membersOf, h]
  | cons r rs ih =>
      intro acc k
      show alook (foldGroups gid rs (stepGroup gid acc r)) k = _
      rw [ih (stepGroup gid acc r) k, alook_stepGroup]
      by_cases hk : k = groupKeyStr gid r
      · subst hk
        rw [if_pos rfl]
        have hmem : membersOf gid (r :: rs) (groupKeyStr gid r)
            = r :: membersOf gid rs (groupKeyStr gid r) := by
          simp [membersOf, List.filter_cons]
        rw [hmem]
        cases h0 : alook acc (groupKeyStr gid r) with
        | none =>
            cases hms : membersOf gid rs (groupKeyStr gid r) with
            | nil => simp
            | cons m ms =>
                simp only [Option.some.injEq, GroupAcc.mk.injEq, List.length_cons,
                  eq_self_iff_true, true_and, and_true]
                exact ⟨by omega, by simp⟩
        | some g =>
            cases hms : membersOf gid rs (groupKeyStr gid r) with
            | nil =>
                simp only [Option.some.injEq, GroupAcc.mk.injEq, List.length_nil,
                  List.length_cons, List.append_assoc, List.singleton_append,
                  List.append_nil, eq_self_iff_true, true_and, and_true]
            | cons m ms =>
                simp only [Option.some.injEq, GroupAcc.mk.injEq, List.length_cons,
                  List.append_assoc, List.singleton_append, eq_self_iff_true,
                  true_and, and_true]
                omega
      · rw [if_neg hk]
        have hmem : membersOf gid (r :: rs) k = membersOf gid rs k := by
          have : ¬ groupKeyStr gid r = k := fun he => hk he.symm
          simp [membersOf, List.filter_cons, this]
        rw [hmem]

def keysOf (gs : Groups) : List String := gs.map Prod.fst

theorem alook_none_iff {α : Type} (l : List (String × α)) (k : String) :
    alook l k = none ↔ ¬ k ∈ l.map Prod.fst := by
  induction l with
  | nil => simp [alook]
  | cons kv rest ih =>
      by_cases h : kv.1 = k
      · simp [alook, h]
      · have h' : ¬ k = kv.1 := fun he => h he.symm
        simp [alook, h, h', ih]

theorem keysOf_aset {α : Type} (l : List (String × α)) (k : String) (v : α) :
    (aset l k v).map Prod.fst
      = if (alook l k).isSome then l.map Prod.fst else l.map Prod.fst ++ [k] := by
  induction l with
  | nil => simp [aset, alook]
  | cons kv rest ih =>
      by_cases h : kv.1 = k
      · subst h
        simp [aset, alook]
      · simp only [aset, if_neg h, List.map_cons, alook, ih]
        by_cases hs : (alook rest k).isSome <;> simp [hs]

theorem keysOf_stepGroup_nodup (gid : GroupId) (gs : Groups) (doc : Record)
    (h : (keysOf gs).Nodup) : (keysOf (stepGroup gid gs doc)).Nodup := by
  cases h0 : alook gs (groupKeyStr gid doc) with
  | some g =>
      have h0' : alook gs (toKey (groupKeyOf gid doc)) = some g := h0
      have hstep : stepGroup gid gs doc
          = aset gs (toKey (groupKeyOf gid doc))
              { idVal := g.idVal, count := g.count + 1, docs := g.docs ++ [doc] } := by
        unfold stepGroup
        simp only [h0']
      unfold keysOf
      rw [hstep, keysOf_aset]
      rw [h0']
      simpa [keysOf] using h
  | none =>
      have h0' : alook gs (toKey (groupKeyOf gid doc)) = none := h0
      have hstep : stepGroup gid gs doc
          = gs ++ [(toKey (groupKeyOf gid doc),
              { idVal := groupKeyOf gid doc, count := 1, docs := [doc] })] := by
        unfold stepGroup
        simp only [h0']
      have hnot : ¬ (toKey (groupKeyOf gid doc)) ∈ gs.map Prod.fst :=
        (alook_none_iff gs _).mp h0'
      unfold keysOf
      rw [hstep, List.map_append]
      refine List.Nodup.append h (List.nodup_singleton _) ?_
      intro a ha hb
      simp only [List.map_singleton, List.mem_singleton] at hb
      subst hb
      exact hnot ha

theorem keysOf_foldGroups_nodup (gid : GroupId) (rs : List Record) :
    ∀ acc : Groups, (keysOf acc).Nodup → (keysOf (foldGroups gid rs acc)).Nodup := by
  induction rs with
  | nil => intro acc h; exact h
  | cons r rs0 ih =>
      intro acc h
      exact ih (stepGroup gid acc r) (keysOf_stepGroup_nodup gid acc r h)

/-- C6 (amended). The group stage partitions the input sequence by the
property-key string of the named field (or the supplied key function): the
group objects have pairwise distinct keys, every input record lands in the
group of its own key, and the group of a key holds the key value of its
first member, a count equal to the number of member records, and the member
records in input order. The output records of the stage hold exactly the
underscore id, count and docs fields: accumulator operators declared in the
stage (the accums entries) are ignored by the engine and produce no output
field, which is where the original claim fails. -/
theorem c6_group_partition (gid : GroupId) (accums : List (String × String × String))
    (recs : List Record) (k : String) (g : GroupAcc)
    (h : alook (foldGroups gid recs []) k = some g) :
    g.docs = membersOf gid recs k
    ∧ g.count = (membersOf gid recs k).length
    ∧ g.idVal = groupKeyOf gid ((membersOf gid recs k).headD [])
    ∧ aggregate recs [groupStage { gid := gid, accums := accums }]
        = (foldGroups gid recs []).map toGroupRecord
    ∧ (toGroupRecord (k, g)).map Prod.fst = ["_id", "count", "docs"]
    ∧ (keysOf (foldGroups gid recs [])).Nodup
    ∧ recs.all (fun r => (alook (foldGroups gid recs []) (groupKeyStr gid r)).isSome)
        = true := by
  have hnil : alook ([] : Groups) k = none := rfl
  have hchar := alook_foldGroups gid recs [] k
  cases hms : membersOf gid recs k with
  | nil =>
      simp only [hnil, hms] at hchar
      rw [h] at hchar
      exact Option.noConfusion hchar
  | cons m ms =>
      simp only [hnil, hms] at hchar
      rw [h] at hchar
      injection hchar with hg
      subst hg
      refine ⟨rfl, by simp, rfl, rfl, rfl, ?_, ?_⟩
      · exact keysOf_foldGroups_nodup gid recs [] (by simp [keysOf])
      · rw [List.all_eq_true]
        intro r hr
        have hmem : r ∈ membersOf gid recs (groupKeyStr gid r) :=
          List.mem_filter.mpr ⟨hr, by simp⟩
        have hchar2 := alook_foldGroups gid recs [] (groupKeyStr gid r)
        have hnil2 : alook ([] : Groups) (groupKeyStr gid r) = none := rfl
        cases hms2 : membersOf gid recs (groupKeyStr gid r) with
        | nil => rw [hms2] at hmem; exact absurd hmem (List.not_mem_nil r)
        | cons m2 ms2 =>
            simp only [hnil2, hms2] at hchar2
            rw [hchar2]
            rfl

/-- The two-record table of the group scenario. -/
def c6Recs : List Record :=
  [[("cat", Value.str "a"), ("price", Value.num 10)],
   [("cat", Value.str "a"), ("price", Value.num 30)]]

/-- C6 witness: grouping the two-record table by the cat field, with a
declared average accumulator, yields the single group of key a holding both
records, and the stage output carries only the three engine fields. -/
theorem c6_group_partition_witness :
    ({ idVal := Value.str "a", count := 2, docs := c6Recs } : GroupAcc).docs
        = membersOf (GroupId.field "cat") c6Recs "a"
    ∧ ({ idVal := Value.str "a", count := 2, docs := c6Recs } : GroupAcc).count
        = (membersOf (GroupId.field "cat") c6Recs "a").length
    ∧ ({ idVal := Value.str "a", count := 2, docs := c6Recs } : GroupAcc).idVal
        = groupKeyOf (GroupId.field "cat")
            ((membersOf (GroupId.field "cat") c6Recs "a").headD [])
    ∧ aggregate c6Recs
        [groupStage { gid := GroupId.field "cat",
                      accums := [("avgPrice", "$avg", "price")] }]
        = (foldGroups (GroupId.field "cat") c6Recs []).map toGroupRecord
    ∧ (toGroupRecord ("a", { idVal := Value.str "a", count := 2, docs := c6Recs })).map
        Prod.fst = ["_id", "count", "docs"]
    ∧ (keysOf (foldGroups (GroupId.field "cat") c6Recs [])).Nodup
    ∧ c6Recs.all (fun r =>
        (alook (foldGroups (GroupId.field "cat") c6Recs [])
          (groupKeyStr (GroupId.field "cat") r)).isSome) = true :=
  c6_group_partition (GroupId.field "cat") [("avgPrice", "$avg", "price")] c6Recs "a"
    { idVal := Value.str "a", count := 2, docs := c6Recs } rfl

/-- C6 counterexample: the stage declares an average accumulator over the
price field, yet the output record holds only underscore id, count and docs;
no output record carries the declared avgPrice field the claim promises. -/
theorem c6_accumulators_ignored :
    aggregate c6Recs
        [groupStage { gid := GroupId.field "cat",
                      accums := [("avgPrice", "$avg", "price")] }]
      = [[("_id", Value.str "a"), ("count", Value.num 2),
          ("docs", Value.arr [Value.obj [("cat", Value.str "a"), ("price", Value.num 10)],
                              Value.obj [("cat", Value.str "a"), ("price", Value.num 30)]])]]
    ∧ (aggregate c6Recs
        [groupStage { gid := GroupId.field "cat",
                      accums := [("avgPrice", "$avg", "price")] }]).all
        (fun r => (alook r "avgPrice").isNone) = true :=
  ⟨rfl, rfl⟩

/-! ## Claim C7: update atomicity -/

def applyPatchesSeq (patch : Record) (ts : String) : List Record → List Nat → List Record
  | records, [] => records
  | records, p :: rest =>
      applyPatchesSeq patch ts
        (records.set p (mergedCandidate (records.getD p []) patch ts)) rest

theorem getD_set_ne (l : List Record) (i j : Nat) (h : ¬ i = j) (v : Record) :
    (l.set i v).getD j [] = l.getD j [] := by
  rw [List.getD_eq_getElem?_getD, List.getD_eq_getElem?_getD, List.getElem?_set_ne h]

theorem applyPatchesSeq_getD_not_mem (patch : Record) (ts : String) :
    ∀ (ps : List Nat) (records : List Record) (p : Nat), ¬ p ∈ ps →
      (applyPatchesSeq patch ts records ps).getD p [] = records.getD p [] := by
  intro ps
  induction ps with
  | nil => intro records p _; rfl
  | cons x xs ih =>
      intro records p hp
      have hx : ¬ x = p := fun he => hp (he ▸ List.mem_cons_self x xs)
      have hxs : ¬ p ∈ xs := fun hm => hp (List.mem_cons_of_mem x hm)
      show (applyPatchesSeq patch ts
          (records.set x (mergedCandidate (records.getD x []) patch ts)) xs).getD p []
        = records.getD p []
      rw [ih _ p hxs, getD_set_ne _ _ _ hx]

theorem updateLoop_split (schema : Option Schema) (patch : Record) (ts : String) :
    ∀ (ps1 : List Nat) (records : List Record) (p : Nat) (ps2 : List Nat),
      (ps1 ++ p :: ps2).Nodup →
      (∀ x ∈ ps1,
        (validateData schema (mergedCandidate (records.getD x []) patch ts)).isEmpty
          = true) →
      (validateData schema (mergedCandidate (records.getD p []) patch ts)).isEmpty
          = false →
      updateLoop schema patch ts records (ps1 ++ p :: ps2)
        = (some (joinErrors
              (validateData schema (mergedCandidate (records.getD p []) patch ts))),
           applyPatchesSeq patch ts records ps1) := by
  intro ps1
  induction ps1 with
  | nil =>
      intro records p ps2 _ _ hbad
      have hneg : ¬ ((validateData schema
          (mergedCandidate (records.getD p []) patch ts)).isEmpty = true) := by
        rw [hbad]; exact Bool.false_ne_true
      show updateLoop schema patch ts records (p :: ps2) = _
      simp only [updateLoop]
      rw [if_neg hneg]
      rfl
  | cons q qs ih =>
      intro records p ps2 hnd hok hbad
      have hq := hok q (List.mem_cons_self q qs)
      have hstep : updateLoop schema patch ts records ((q :: qs) ++ p :: ps2)
          = updateLoop schema patch ts
              (records.set q (mergedCandidate (records.getD q []) patch ts))
              (qs ++ p :: ps2) := by
        show updateLoop schema patch ts records (q :: (qs ++ p :: ps2)) = _
        simp only [updateLoop]
        rw [if_pos hq]
      rw [hstep]
      have hnotin : ¬ q ∈ qs ++ p :: ps2 := (List.nodup_cons.mp hnd).1
      have hnd' : (qs ++ p :: ps2).Nodup := (List.nodup_cons.mp hnd).2
      have hqp : ¬ q = p := fun he =>
        hnotin (List.mem_append.mpr (Or.inr (he ▸ List.mem_cons_self p ps2)))
      have hgetp : (records.set q (mergedCandidate (records.getD q []) patch ts)).getD p []
          = records.getD p [] := getD_set_ne _ _ _ hqp _
      have hok' : ∀ x ∈ qs,
          (validateData schema (mergedCandidate
            ((records.set q (mergedCandidate (records.getD q []) patch ts)).getD x [])
            patch ts)).isEmpty = true := by
        intro x hx
        have hqx : ¬ q = x := fun he =>
          hnotin (List.mem_append.mpr (Or.inl (he ▸ hx)))
        rw [getD_set_ne _ _ _ hqx]
        exact hok x (List.mem_cons_of_mem q hx)
      have hbad' : (validateData schema (mergedCandidate
          ((records.set q (mergedCandidate (records.getD q []) patch ts)).getD p [])
          patch ts)).isEmpty = false := by
        rw [hgetp]; exact hbad
      rw [ih _ p ps2 hnd' hok' hbad', hgetp]
      rfl

/-- C7 (amended). Update walks the matched positions in order, patching as
it goes: when the merged candidate of some matched record fails validation
(positions distinct, earlier candidates valid), the operation throws, the
failing record itself is unchanged, no later match is touched, but every
record matched before the failing one keeps its applied patch. The original
claim says no matched record is modified; the records matched earlier are. -/
theorem c7_update_partial_mutation (schema : Option Schema) (td : TableData)
    (q patch : List (String × Value)) (ts : String)
    (ps1 ps2 : List Nat) (p : Nat)
    (hsplit : findPositions td q = ps1 ++ p :: ps2)
    (hnd : (ps1 ++ p :: ps2).Nodup)
    (hok : ps1.all (fun x =>
        (validateData schema (mergedCandidate (td.records.getD x []) patch ts)).isEmpty)
      = true)
    (hbad : (validateData schema
        (mergedCandidate (td.records.getD p []) patch ts)).isEmpty = false) :
    (updateOp schema td q patch ts).1.isSome = true
    ∧ (updateOp schema td q patch ts).2.records
        = applyPatchesSeq patch ts td.records ps1
    ∧ (updateOp schema td q patch ts).2.records.getD p [] = td.records.getD p [] := by
  have hok' : ∀ x ∈ ps1,
      (validateData schema (mergedCandidate (td.records.getD x []) patch ts)).isEmpty
        = true :=
    fun x hx => List.all_eq_true.mp hok x hx
  have hrun := updateLoop_split schema patch ts ps1 td.records p ps2 hnd hok' hbad
  have hupd : updateOp schema td q patch ts
      = (some (joinErrors
            (validateData schema (mergedCandidate (td.records.getD p []) patch ts))),
         { td with records := applyPatchesSeq patch ts td.records ps1 }) := by
    unfold updateOp
    rw [hsplit, hrun]
  have hp1 : ¬ p ∈ ps1 := fun hm =>
    (List.disjoint_of_nodup_append hnd) hm (List.mem_cons_self p ps2)
  refine ⟨by rw [hupd]; rfl, by rw [hupd], ?_⟩
  rw [hupd]
  exact applyPatchesSeq_getD_not_mem patch ts ps1 td.records p hp1

/-- The table of the partial-update scenario, reached by two inserts on a
schema-free table: the first record has a name, the second does not. -/
def c7Table : TableData :=
  (applyOps none
    [Op.ins "a" "t1" [("name", Value.str "ok")], Op.ins "b" "t1" []]
    ({}, {})).1

/-- C7 witness: updating every record of the two-record table under a schema
requiring name fails on the second record, leaves the table in the state
with the first record patched, and the failing record unchanged. -/
theorem c7_update_partial_mutation_witness :
    (updateOp (some [("name", { required := true })]) c7Table []
        [("age", Value.num 5)] "t2").1.isSome = true
    ∧ (updateOp (some [("name", { required := true })]) c7Table []
        [("age", Value.num 5)] "t2").2.records
      = applyPatchesSeq [("age", Value.num 5)] "t2" c7Table.records [0]
    ∧ (updateOp (some [("name", { required := true })]) c7Table []
        [("age", Value.num 5)] "t2").2.records.getD 1 []
      = c7Table.records.getD 1 [] :=
  c7_update_partial_mutation (some [("name", { required := true })]) c7Table
    [] [("age", Value.num 5)] "t2" [0] [] 1 rfl (by decide) (by decide) (by decide)

/-- C7 counterexample: after the failed update the operation has thrown, yet
the first matched record now carries the patched age while it had none
before, so the claim that no matched record is modified is false; the
failing second record is indeed unchanged. -/
theorem c7_update_not_atomic :
    (updateOp (some [("name", { required := true })]) c7Table []
        [("age", Value.num 5)] "t2").1.isSome = true
    ∧ jsGet ((updateOp (some [("name", { required := true })]) c7Table []
        [("age", Value.num 5)] "t2").2.records.getD 0 []) "age" = Value.num 5
    ∧ jsGet (c7Table.records.getD 0 []) "age" = Value.undef
    ∧ jsGet ((updateOp (some [("name", { required := true })]) c7Table []
        [("age", Value.num 5)] "t2").2.records.getD 1 []) "age" = Value.undef :=
  ⟨rfl, rfl, rfl, rfl⟩

end FlatDb

